import Mathlib

/-!
Verification development for the FAIReSheets metadata grid compiler and its
batched mutation engine.  The definitions below are shallow embeddings of the
Python source:

* `src/src/helpers/api_retry.py` — `is_rate_limit_error`, `retry_on_429`,
  `batch_update_with_retry` (chunking, exponential backoff, error propagation);
* `src/src/helpers/sample_metadata_sheet.py` — the column filter / fan-out
  pipeline of `create_sample_metadata_sheet` and its data-validation requests;
* `src/src/helpers/project_metadata_sheet.py` — data-validation requests;
* `src/src/helpers/FAIRe2NODE_helpers.py` — row/column deletion requests and
  NOAA profile data-validation requests.

Strings model Python strings; `Option String` models a cell that may be NaN;
exceptions are modelled as values (`ApiResult`, `EngineResult`); the float
arithmetic `base_sleep_seconds * (1.5 ** attempt)` is modelled in `ℚ` with the
exact factor 3/2 (exact in binary floating point for the small exponents the
engine ever reaches before the `min` cap applies).
-/

namespace FAIReSheets

/-! ### Remote call outcomes (api_retry.py) -/

/-- Outcome of one invocation of a Sheets API call: either a return value or a
`gspread.exceptions.APIError` carrying its string rendering. -/
inductive ApiResult (α : Type) where
  | ok (v : α)
  | err (e : String)
deriving DecidableEq

/-- Result of `retry_on_429`: the value returned by `fn`, a re-raised
`APIError`, or — when the loop body never ran — Python's `raise last_exc` with
`last_exc = None`, which is a `TypeError` (modelled as `raisedNone`). -/
inductive EngineResult (α : Type) where
  | returned (v : α)
  | raisedErr (e : String)
  | raisedNone
deriving DecidableEq

/-- Does the character list start with the given pattern? -/
def startsWithChars : List Char → List Char → Bool
  | [], _ => true
  | _ :: _, [] => false
  | p :: ps, c :: cs => p == c && startsWithChars ps cs

/-- Does the pattern occur as a contiguous subsequence of the list?  This is
Python's `pat in s` on strings, at the character-list level. -/
def hasInfixChars (pat : List Char) : List Char → Bool
  | [] => pat.isEmpty
  | c :: cs => startsWithChars pat (c :: cs) || hasInfixChars pat cs

/-- `is_rate_limit_error` (api_retry.py line 16): `"429" in str(e)`. -/
def is_rate_limit_error (e : String) : Bool :=
  hasInfixChars "429".data e.data

/-- Growth factor of the exponential backoff (api_retry.py line 44): the
literal `1.5`. -/
def growthFactor : ℚ := 3 / 2

/-- Sleep computed at api_retry.py line 44:
`min(max_sleep_seconds, base_sleep_seconds * (1.5 ** attempt))`. -/
def sleepDelay (base maxd : ℚ) (attempt : Nat) : ℚ :=
  min maxd (base * growthFactor ^ attempt)

/-- Body of the `for attempt in range(max_attempts)` loop of `retry_on_429`
(api_retry.py lines 35-47).  `fn i` is the outcome of the i-th invocation of
`fn`; `remaining` counts the loop iterations still to run; `last` is
`last_exc`.  The result records the engine outcome, the number of calls to
`fn`, and the list of sleeps performed (in order). -/
def retryGo (fn : Nat → ApiResult α) (base maxd : ℚ) :
    Nat → Nat → Option String → EngineResult α × Nat × List ℚ
  | 0, _, last =>
    (match last with
     | some e => .raisedErr e
     | none => .raisedNone, 0, [])
  | remaining + 1, i, _ =>
    match fn i with
    | .ok v => (.returned v, 1, [])
    | .err e =>
      if is_rate_limit_error e then
        let r := retryGo fn base maxd remaining (i + 1) (some e)
        (r.1, r.2.1 + 1, sleepDelay base maxd i :: r.2.2)
      else
        (.raisedErr e, 1, [])

/-- `retry_on_429(fn, max_attempts, base_sleep_seconds, max_sleep_seconds)`:
run `fn`, retrying with exponential backoff on HTTP 429 (api_retry.py
lines 19-47). -/
def retry_on_429 (fn : Nat → ApiResult α) (max_attempts : Nat) (base maxd : ℚ) :
    EngineResult α × Nat × List ℚ :=
  retryGo fn base maxd max_attempts 0 none

/-! ### Chunking (batch_update_with_retry, api_retry.py lines 50-63) -/

/-- Fuel-driven unfolding of the loop
`for i in range(0, len(requests), chunk_size): batch = requests[i:i+chunk_size]`.
The fuel is an upper bound on the list length, which makes the definition
structurally recursive and hence computable by `decide`/`rfl`. -/
def chunksGo (k : Nat) : Nat → List α → List (List α)
  | 0, _ => []
  | _, [] => []
  | fuel + 1, x :: xs =>
    (x :: xs).take k :: chunksGo k fuel ((x :: xs).drop k)

/-- The chunk list produced by `batch_update_with_retry` for a given
`chunk_size` (api_retry.py lines 61-62).  `chunk_size = 0` is Python's
`range(0, n, 0)` `ValueError`; it is mapped to the empty chunk list and ruled
out by the `0 < k` hypotheses of the theorems. -/
def chunksOf (k : Nat) (l : List α) : List (List α) :=
  if k = 0 then [] else chunksGo k l.length l

/-- Result of `batch_update_with_retry`: either all chunks were applied, or a
failure was raised after the recorded chunks were applied.  The raised value
carries the exception only — the exact shape of `raise last_exc`. -/
inductive BatchResult (α : Type) where
  | completed (applied : List (List α))
  | failed (e : Option String) (applied : List (List α))
deriving DecidableEq

/-- Prepend a successfully applied chunk to a batch result. -/
def pushChunk (c : List α) : BatchResult α → BatchResult α
  | .completed l => .completed (c :: l)
  | .failed e l => .failed e (c :: l)

/-- Sequential application of the chunks (the loop body of
`batch_update_with_retry`, api_retry.py lines 61-63): each chunk is passed to
`retry_on_429`; a raised exception stops the loop and propagates. -/
def processChunks (remote : List α → Nat → ApiResult Unit) (max_attempts : Nat)
    (base maxd : ℚ) : List (List α) → BatchResult α
  | [] => .completed []
  | c :: rest =>
    match (retry_on_429 (fun att => remote c att) max_attempts base maxd).1 with
    | .returned _ => pushChunk c (processChunks remote max_attempts base maxd rest)
    | .raisedErr e => .failed (some e) []
    | .raisedNone => .failed none []

/-- `batch_update_with_retry(spreadsheet, requests, chunk_size)` (api_retry.py
lines 50-63), with the remote `batch_update` call abstracted as `remote`
(a function of the chunk contents and the attempt number). -/
def batch_update_with_retry (remote : List α → Nat → ApiResult Unit)
    (requests : List α) (chunk_size max_attempts : Nat) (base maxd : ℚ) :
    BatchResult α :=
  processChunks remote max_attempts base maxd (chunksOf chunk_size requests)

/-! ### Basic lemmas about the chunking loop -/

theorem chunksGo_flatten {α : Type} {k : Nat} (hk : 0 < k) :
    ∀ (fuel : Nat) (l : List α), l.length ≤ fuel → (chunksGo k fuel l).flatten = l := by
  intro fuel
  induction fuel with
  | zero =>
    intro l hl
    have : l = [] := List.eq_nil_of_length_eq_zero (Nat.le_zero.mp hl)
    subst this
    rfl
  | succ n ih =>
    intro l hl
    cases l with
    | nil => rfl
    | cons x xs =>
      have hdrop : ((x :: xs).drop k).length ≤ n := by
        simp only [List.length_drop, List.length_cons] at *
        omega
      simp only [chunksGo, List.flatten, ih _ hdrop, List.take_append_drop]

theorem chunksGo_length_le {α : Type} {k : Nat} :
    ∀ (fuel : Nat) (l : List α) (c : List α), c ∈ chunksGo k fuel l → c.length ≤ k := by
  intro fuel
  induction fuel with
  | zero => intro l c hc; simp [chunksGo] at hc
  | succ n ih =>
    intro l c hc
    cases l with
    | nil => simp [chunksGo] at hc
    | cons x xs =>
      simp only [chunksGo, List.mem_cons] at hc
      rcases hc with hc | hc
      · subst hc
        simp [List.length_take]
      · exact ih _ _ hc

/-! ### Lemmas about the retry loop -/

theorem retryGo_calls_le {α : Type} (fn : Nat → ApiResult α) (base maxd : ℚ) :
    ∀ (m i : Nat) (last : Option String), (retryGo fn base maxd m i last).2.1 ≤ m := by
  intro m
  induction m with
  | zero => intro i last; simp [retryGo]
  | succ n ih =>
    intro i last
    simp only [retryGo]
    cases fn i with
    | ok v => simp
    | err e =>
      by_cases h : is_rate_limit_error e = true
      · simp only [h, if_true]
        have := ih (i + 1) (some e)
        omega
      · simp only [Bool.not_eq_true] at h
        simp [h]

theorem sleepDelay_range_shift (base maxd : ℚ) (i n : Nat) :
    (List.range (n + 1)).map (fun j => sleepDelay base maxd (i + j)) =
      sleepDelay base maxd i ::
        (List.range n).map (fun j => sleepDelay base maxd (i + 1 + j)) := by
  rw [List.range_succ_eq_map]
  simp only [List.map_cons, List.map_map, Nat.add_zero]
  refine congrArg₂ _ rfl ?_
  apply List.map_congr_left
  intro j _
  simp only [Function.comp_apply]
  congr 1
  omega

theorem retryGo_first_non_quota {α : Type} (fn : Nat → ApiResult α) (base maxd : ℚ)
    (e : String) (hrate : is_rate_limit_error e = false) :
    ∀ (k m i : Nat) (last : Option String), k < m →
      (∀ j, j < k → ∃ e', fn (i + j) = .err e' ∧ is_rate_limit_error e' = true) →
      fn (i + k) = .err e →
      retryGo fn base maxd m i last =
        (.raisedErr e, k + 1, (List.range k).map (fun j => sleepDelay base maxd (i + j))) := by
  intro k
  induction k with
  | zero =>
    intro m i last hm hpre hke
    obtain ⟨m', rfl⟩ : ∃ m', m = m' + 1 := ⟨m - 1, by omega⟩
    simp only [Nat.add_zero] at hke
    simp [retryGo, hke, hrate]
  | succ k ih =>
    intro m i last hm hpre hke
    obtain ⟨m', rfl⟩ : ∃ m', m = m' + 1 := ⟨m - 1, by omega⟩
    obtain ⟨e0, he0, hr0⟩ := hpre 0 (by omega)
    simp only [Nat.add_zero] at he0
    have hrec := ih m' (i + 1) (some e0) (by omega)
      (fun j hj => by
        have := hpre (j + 1) (by omega)
        simpa [Nat.add_assoc, Nat.add_comm 1 j] using this)
      (by simpa [Nat.add_assoc, Nat.add_comm 1 k] using hke)
    simp only [retryGo, he0, hr0, if_true, hrec]
    refine Prod.ext rfl (Prod.ext rfl ?_)
    rw [sleepDelay_range_shift]

theorem retryGo_sleeps_prefix {α : Type} (fn : Nat → ApiResult α) (base maxd : ℚ) :
    ∀ (k m i : Nat) (last : Option String), k < m →
      (∀ j, j ≤ k → ∃ e, fn (i + j) = .err e ∧ is_rate_limit_error e = true) →
      ∃ tl, (retryGo fn base maxd m i last).2.2 =
        ((List.range (k + 1)).map (fun j => sleepDelay base maxd (i + j))) ++ tl := by
  intro k
  induction k with
  | zero =>
    intro m i last hm h429
    obtain ⟨m', rfl⟩ : ∃ m', m = m' + 1 := ⟨m - 1, by omega⟩
    obtain ⟨e0, he0, hr0⟩ := h429 0 (by omega)
    simp only [Nat.add_zero] at he0
    refine ⟨(retryGo fn base maxd m' (i + 1) (some e0)).2.2, ?_⟩
    rw [sleepDelay_range_shift]
    simp [retryGo, he0, hr0]
  | succ k ih =>
    intro m i last hm h429
    obtain ⟨m', rfl⟩ : ∃ m', m = m' + 1 := ⟨m - 1, by omega⟩
    obtain ⟨e0, he0, hr0⟩ := h429 0 (by omega)
    simp only [Nat.add_zero] at he0
    obtain ⟨tl, htl⟩ := ih m' (i + 1) (some e0) (by omega)
      (fun j hj => by
        have := h429 (j + 1) (by omega)
        simpa [Nat.add_assoc, Nat.add_comm 1 j] using this)
    refine ⟨tl, ?_⟩
    simp only [retryGo, he0, hr0, if_true, htl]
    rw [sleepDelay_range_shift base maxd i (k + 1), List.cons_append]

/-! ### Theorems for the Batched Mutation Engine claims -/

/-- C2: for every list of operations and every positive chunk-size limit, the
engine partitions the list into chunks of size at most `maxOpsPerChunk`, and
concatenating the chunks in emitted order reconstructs the original operation
list exactly. -/
theorem C2_chunk_partition {α : Type} (ops : List α) (maxOps : Nat) (h : 0 < maxOps) :
    (chunksOf maxOps ops).flatten = ops ∧ ∀ c ∈ chunksOf maxOps ops, c.length ≤ maxOps := by
  unfold chunksOf
  rw [if_neg (by omega)]
  exact ⟨chunksGo_flatten h _ _ le_rfl, fun c hc => chunksGo_length_le _ _ _ hc⟩

theorem C2_chunk_partition_witness :
    (chunksOf 2 [1, 2, 3, 4, 5]).flatten = [1, 2, 3, 4, 5] ∧
      ∀ c ∈ chunksOf 2 ([1, 2, 3, 4, 5] : List Nat), c.length ≤ 2 :=
  C2_chunk_partition [1, 2, 3, 4, 5] 2 (by decide)

/-- C3: as long as every attempt up to `k` fails with a quota-exceeded (429)
signal, the delay slept before attempt `k+1` is exactly
`min(maxDelay, baseDelay * growthFactor ^ k)`; moreover, for the parameters
`baseDelay = 1, maxDelay = 8`, the delay schedule is non-decreasing in the
attempt number and never exceeds `maxDelay = 8`. -/
theorem C3_backoff_schedule (fn : Nat → ApiResult Unit) (max_attempts k : Nat)
    (base maxd : ℚ) (hk : k < max_attempts)
    (h429 : ∀ j, j ≤ k → ∃ e, fn j = .err e ∧ is_rate_limit_error e = true) :
    (retry_on_429 fn max_attempts base maxd).2.2[k]? = some (sleepDelay base maxd k) ∧
      (∀ j j', j ≤ j' → sleepDelay 1 8 j ≤ sleepDelay 1 8 j') ∧
      (∀ j, sleepDelay 1 8 j ≤ 8) := by
  refine ⟨?_, ?_, ?_⟩
  · obtain ⟨tl, htl⟩ := retryGo_sleeps_prefix fn base maxd k max_attempts 0 none hk
      (fun j hj => by simpa using h429 j hj)
    unfold retry_on_429
    rw [htl, List.getElem?_append_left (by simp)]
    simp [List.getElem?_range]
  · intro j j' hjj
    unfold sleepDelay
    refine min_le_min le_rfl ?_
    rw [one_mul, one_mul]
    exact pow_le_pow_right₀ (by norm_num [growthFactor]) hjj
  · intro j
    exact min_le_left _ _

theorem C3_backoff_schedule_witness :
    (retry_on_429 (fun _ => ApiResult.err (α := Unit) "429") 5 1 8).2.2[2]? =
        some (sleepDelay 1 8 2) ∧
      (∀ j j', j ≤ j' → sleepDelay 1 8 j ≤ sleepDelay 1 8 j') ∧
      (∀ j, sleepDelay 1 8 j ≤ 8) :=
  C3_backoff_schedule (fun _ => ApiResult.err "429") 5 2 1 8 (by decide)
    (fun j _ => ⟨"429", rfl, by decide⟩)

/-- C4: when the function fails with a remote error that is not a
quota-exceeded (429) signal — after `k` earlier quota failures — the engine
re-raises that error at once: exactly `k + 1` invocations were made (none
after the failing one) and only the `k` earlier backoff sleeps were performed
(no sleep accompanies the fatal error). -/
theorem C4_non_quota_propagates {α : Type} (fn : Nat → ApiResult α)
    (max_attempts k : Nat) (base maxd : ℚ) (e : String)
    (hk : k < max_attempts)
    (hpre : ∀ j, j < k → ∃ e', fn j = .err e' ∧ is_rate_limit_error e' = true)
    (hke : fn k = .err e) (hrate : is_rate_limit_error e = false) :
    retry_on_429 fn max_attempts base maxd =
      (.raisedErr e, k + 1, (List.range k).map (sleepDelay base maxd)) := by
  unfold retry_on_429
  rw [retryGo_first_non_quota fn base maxd e hrate k max_attempts 0 none hk
    (fun j hj => by simpa using hpre j hj) (by simpa using hke)]
  simp

theorem C4_non_quota_propagates_witness :
    retry_on_429 (fun _ => ApiResult.err "PERMISSION_DENIED" (α := Unit)) 8 15 90 =
      (.raisedErr "PERMISSION_DENIED", 1, (List.range 0).map (sleepDelay 15 90)) :=
  C4_non_quota_propagates (fun _ => ApiResult.err "PERMISSION_DENIED") 8 0 15 90
    "PERMISSION_DENIED" (by decide) (fun j hj => absurd hj (by omega)) rfl (by decide)

/-- C10: `retry_on_429` invokes the supplied function at most `max_attempts`
times, and in the degenerate case `max_attempts = 0` it makes no invocation at
all and raises the uninitialized sentinel `None` (Python's `raise last_exc`
with `last_exc = None`, a `TypeError`) instead of returning a value or
surfacing a remote API error. -/
theorem C10_call_bound {α : Type} (fn : Nat → ApiResult α) (max_attempts : Nat)
    (base maxd : ℚ) :
    (retry_on_429 fn max_attempts base maxd).2.1 ≤ max_attempts ∧
      retry_on_429 fn 0 base maxd = (.raisedNone, 0, []) :=
  ⟨retryGo_calls_le fn base maxd max_attempts 0 none, rfl⟩

/-! ### Failure shape of `batch_update_with_retry` -/

/-- The engine outcome corresponding to `raise last_exc`: re-raise the stored
exception, or raise the `None` sentinel when none was stored. -/
def raisedOf (e : Option String) : EngineResult Unit :=
  match e with
  | some s => .raisedErr s
  | none => .raisedNone

theorem processChunks_failed {α : Type} (remote : List α → Nat → ApiResult Unit)
    (max_attempts : Nat) (base maxd : ℚ) :
    ∀ (cs : List (List α)) (e : Option String) (applied : List (List α)),
      processChunks remote max_attempts base maxd cs = .failed e applied →
      applied = cs.take applied.length ∧
        ∃ c, cs[applied.length]? = some c ∧
          (retry_on_429 (fun att => remote c att) max_attempts base maxd).1 =
            raisedOf e := by
  intro cs
  induction cs with
  | nil => intro e applied h; simp [processChunks] at h
  | cons c rest ih =>
    intro e applied h
    simp only [processChunks] at h
    cases hr : (retry_on_429 (fun att => remote c att) max_attempts base maxd).1 with
    | returned v =>
      rw [hr] at h
      cases hrec : processChunks remote max_attempts base maxd rest with
      | completed l => rw [hrec] at h; simp [pushChunk] at h
      | failed e' l =>
        rw [hrec] at h
        simp only [pushChunk, BatchResult.failed.injEq] at h
        obtain ⟨rfl, rfl⟩ := h
        obtain ⟨htake, c', hc', heng⟩ := ih e' l hrec
        refine ⟨?_, c', ?_, heng⟩
        · simp only [List.length_cons, List.take_succ_cons]
          exact congrArg _ htake
        · simpa using hc'
    | raisedErr s =>
      rw [hr] at h
      simp only [BatchResult.failed.injEq] at h
      obtain ⟨rfl, rfl⟩ := h
      exact ⟨rfl, c, by simp, hr⟩
    | raisedNone =>
      rw [hr] at h
      simp only [BatchResult.failed.injEq] at h
      obtain ⟨rfl, rfl⟩ := h
      exact ⟨rfl, c, by simp, hr⟩

/-- C5 (amended): when a chunk exhausts its retries, `batch_update_with_retry`
re-raises the last exception unchanged.  The applied chunks are exactly the
prefix of the emitted chunk list before the failing chunk — so the index of
the first unapplied chunk is recoverable as the number of applied chunks — but
the raised error value itself is just the remote exception and carries no
chunk index (two runs failing at different chunks raise identical errors). -/
theorem C5_failure_prefix {α : Type} (remote : List α → Nat → ApiResult Unit)
    (requests : List α) (chunk_size max_attempts : Nat) (base maxd : ℚ)
    (e : Option String) (applied : List (List α))
    (h : batch_update_with_retry remote requests chunk_size max_attempts base maxd =
      .failed e applied) :
    applied = (chunksOf chunk_size requests).take applied.length ∧
      ∃ c, (chunksOf chunk_size requests)[applied.length]? = some c ∧
        (retry_on_429 (fun att => remote c att) max_attempts base maxd).1 =
          raisedOf e :=
  processChunks_failed remote max_attempts base maxd _ e applied h

theorem C5_failure_prefix_witness :
    ([[1]] : List (List Nat)) = (chunksOf 1 [1, 2]).take [[1]].length ∧
      ∃ c, (chunksOf 1 [1, 2])[[[1]].length]? = some c ∧
        (retry_on_429
            (fun att =>
              (fun (c : List Nat) (_ : Nat) =>
                if c = [1] then ApiResult.ok () else ApiResult.err "429 quota") c att)
            1 1 8).1 =
          raisedOf (some "429 quota") :=
  C5_failure_prefix
    (fun c _ => if c = [1] then ApiResult.ok () else ApiResult.err "429 quota")
    [1, 2] 1 1 1 8 (some "429 quota") [[1]] (by decide)

/-- C5 (counterexample): the claim that the error raised on quota exhaustion
carries the index of the first unapplied chunk is false.  Two runs that fail
at different chunk positions (first unapplied chunk 0 versus 1) raise the very
same error value, so no function of the raised error can recover the resume
index. -/
theorem C5_counterexample :
    batch_update_with_retry (fun _ _ => ApiResult.err "429 quota") [1, 2] 1 1 1 8 =
        .failed (some "429 quota") [] ∧
      batch_update_with_retry
          (fun c _ => if c = [1] then ApiResult.ok () else ApiResult.err "429 quota")
          [1, 2] 1 1 1 8 =
        .failed (some "429 quota") [[1]] ∧
      ¬ ∃ indexOf : Option String → Nat,
          ∀ (remote : List Nat → Nat → ApiResult Unit) (e : Option String)
            (applied : List (List Nat)),
            batch_update_with_retry remote [1, 2] 1 1 1 8 = .failed e applied →
            indexOf e = applied.length := by
  refine ⟨by decide, by decide, ?_⟩
  rintro ⟨indexOf, hf⟩
  have h1 := hf (fun _ _ => ApiResult.err "429 quota") (some "429 quota") [] (by decide)
  have h2 := hf (fun c _ => if c = [1] then ApiResult.ok () else ApiResult.err "429 quota")
    (some "429 quota") [[1]] (by decide)
  rw [h1] at h2
  simp at h2

/-! ### Schema model and sampleMetadata column pipeline
(sample_metadata_sheet.py, `create_sample_metadata_sheet`) -/

/-- One checklist row of `input_df`, restricted to the attributes the
sampleMetadata filter reads: `term_name` and `sample_type_specificity`
(`none` models a NaN cell). -/
structure FieldSpec where
  term_name : String
  sample_type_specificity : Option String
deriving DecidableEq

/-- One column of the template sheet `sheet_df`, described by the three header
rows the pipeline reads: the term-name row (`none` models an unnamed `col_i`
column), the `# section` row and the `# requirement_level_code` row.  The
sheet was passed through `fillna('')`, so empty cells are `""`. -/
structure Col where
  name : Option String
  sectionLabel : String
  req_level : String
deriving DecidableEq

/-- Case-insensitive substring test: Python's
`str.contains(pattern, case=False)` for a single alternative of the pattern. -/
def lowerContains (s t : String) : Bool :=
  hasInfixChars t.toLower.data s.toLower.data

/-- The per-row predicate of the filter at sample_metadata_sheet.py
lines 36-40: keep a checklist row whose `sample_type_specificity` is NaN, is
`'ALL'`, or matches the regex `'|'.join(sample_type)` case-insensitively.
The join of an empty selection is the empty pattern, which matches every
non-NaN cell; a non-empty join is the alternation of substring tests
(the sample-type names contain no regex metacharacters). -/
def specApplicable (sample_type : List String) (spec : Option String) : Bool :=
  match spec with
  | none => true
  | some s =>
    decide (s = "ALL") ||
      (if sample_type.isEmpty then true else sample_type.any (fun t => lowerContains s t))

/-- `any(s.lower() == 'other' for s in sample_type)`
(sample_metadata_sheet.py line 35). -/
def hasOther (sample_type : List String) : Bool :=
  sample_type.any (fun s => decide (s.toLower = "other"))

/-- `filtered_terms` (sample_metadata_sheet.py lines 36-40): term names of the
checklist rows surviving the sample-type filter. -/
def filteredTerms (sample_type : List String) (input : List FieldSpec) : List String :=
  (input.filter (fun f => specApplicable sample_type f.sample_type_specificity)).map
    FieldSpec.term_name

/-- Column keep-condition of sample_metadata_sheet.py lines 43-47: unnamed
`col_i` columns are kept, named columns are kept when the name is among
`filtered_terms`. -/
def keepBySampleType (sample_type : List String) (input : List FieldSpec) (c : Col) : Bool :=
  match c.name with
  | none => true
  | some n => decide (n ∈ filteredTerms sample_type input)

/-- Sample-type column filter (sample_metadata_sheet.py lines 35-49): skipped
entirely when the selection contains the sentinel `'other'`. -/
def sampleTypeFilter (sample_type : List String) (input : List FieldSpec)
    (cols : List Col) : List Col :=
  if hasOther sample_type then cols
  else cols.filter (keepBySampleType sample_type input)

/-- Removal of the `'Targeted assay detection'` section for metabarcoding
assays (sample_metadata_sheet.py lines 52-57). -/
def dropTargetedSection (assay_type : String) (cols : List Col) : List Col :=
  if assay_type = "metabarcoding" then
    cols.filter (fun c => !decide (c.sectionLabel = "Targeted assay detection"))
  else cols

/-- The per-assay-repeatable field name. -/
def dndName : String := "detected_notDetected"

/-- Fan-out of the `detected_notDetected` column for targeted assays with
multiple assay names (sample_metadata_sheet.py lines 60-78): the requirement
level is read from the (first) matching column, every column with that label
is dropped, and one fresh column per assay name is appended at the end, in
`assay_name` order, named `detected_notDetected_<name>`, with section
`'Targeted assay detection'` and the saved requirement level. -/
def fanOutDetected (assay_type : String) (assay_name : List String)
    (cols : List Col) : List Col :=
  if assay_type = "targeted" ∧ 1 < assay_name.length then
    match cols.find? (fun c => decide (c.name = some dndName)) with
    | none => cols
    | some dcol =>
      cols.filter (fun c => !decide (c.name = some dndName)) ++
        assay_name.map (fun n =>
          ⟨some (dndName ++ "_" ++ n), "Targeted assay detection", dcol.req_level⟩)
  else cols

/-- Requirement-level filter (sample_metadata_sheet.py lines 81-85):
`cols_to_keep = [0]` always keeps the first column; any later column is kept
when its requirement-level cell is in `req_lev` or is empty (NaN cells became
`''` through `fillna`). -/
def reqLevelFilter (req_lev : List String) : List Col → List Col
  | [] => []
  | c0 :: rest =>
    c0 :: rest.filter (fun c => decide (c.req_level ∈ req_lev) || decide (c.req_level = ""))

/-- Appending the user-defined fields (sample_metadata_sheet.py lines 88-93),
each with requirement level `'O'` and section `'User defined'`.  (The source
assigns `sheet_df[field] = ''`, which appends a fresh column when — as the
template guarantees — no column of that name already exists.) -/
def addUserFields (user : List String) (cols : List Col) : List Col :=
  cols ++ user.map (fun u => ⟨some u, "User defined", "O"⟩)

/-- The full column pipeline of `create_sample_metadata_sheet`
(sample_metadata_sheet.py lines 35-93), in source order: sample-type filter,
metabarcoding section removal, detected/not-detected fan-out,
requirement-level filter, user-defined fields. -/
def create_sample_metadata_cols (input : List FieldSpec) (sample_type : List String)
    (assay_type : String) (assay_name : List String) (req_lev user : List String)
    (cols : List Col) : List Col :=
  addUserFields user
    (reqLevelFilter req_lev
      (fanOutDetected assay_type assay_name
        (dropTargetedSection assay_type
          (sampleTypeFilter sample_type input cols))))

/-! ### Stage lemmas for the sampleMetadata pipeline -/

theorem sampleTypeFilter_cons (sample_type : List String) (input : List FieldSpec)
    (c0 : Col) (rest : List Col) (h0 : keepBySampleType sample_type input c0 = true) :
    ∃ r1, sampleTypeFilter sample_type input (c0 :: rest) = c0 :: r1 ∧
      ∀ x : Col, x ∈ r1 ↔
        x ∈ rest ∧ (hasOther sample_type = true ∨
          keepBySampleType sample_type input x = true) := by
  by_cases h : hasOther sample_type = true
  · refine ⟨rest, by simp [sampleTypeFilter, h], fun x => by simp [h]⟩
  · refine ⟨rest.filter (keepBySampleType sample_type input), ?_, fun x => ?_⟩
    · simp only [sampleTypeFilter, h, if_false, Bool.false_eq_true]
      exact List.filter_cons_of_pos h0
    · rw [List.mem_filter]
      simp [h]

theorem dropTargetedSection_cons (assay_type : String) (c0 : Col) (r1 : List Col)
    (h0 : c0.sectionLabel ≠ "Targeted assay detection") :
    ∃ r2, dropTargetedSection assay_type (c0 :: r1) = c0 :: r2 ∧
      ∀ x : Col, x ∈ r2 ↔
        x ∈ r1 ∧ (assay_type = "metabarcoding" →
          x.sectionLabel ≠ "Targeted assay detection") := by
  by_cases h : assay_type = "metabarcoding"
  · refine ⟨r1.filter (fun c => !decide (c.sectionLabel = "Targeted assay detection")),
      ?_, fun x => ?_⟩
    · simp only [dropTargetedSection, h, if_true, if_pos]
      exact List.filter_cons_of_pos (by simp [h0])
    · rw [List.mem_filter]
      simp [h]
  · exact ⟨r1, by simp [dropTargetedSection, h], fun x => by simp [h]⟩

theorem fanOutDetected_cons (assay_type : String) (assay_name : List String)
    (c0 : Col) (r2 : List Col) (h0 : c0.name ≠ some dndName) :
    ∃ r3, fanOutDetected assay_type assay_name (c0 :: r2) = c0 :: r3 ∧
      ∀ x : Col, x.sectionLabel ≠ "Targeted assay detection" → x.name ≠ some dndName →
        (x ∈ r3 ↔ x ∈ r2) := by
  by_cases h : assay_type = "targeted" ∧ 1 < assay_name.length
  · cases hfind : (c0 :: r2).find? (fun c => decide (c.name = some dndName)) with
    | none =>
      exact ⟨r2, by simp [fanOutDetected, h, hfind], fun x _ _ => Iff.rfl⟩
    | some dcol =>
      refine ⟨r2.filter (fun c => !decide (c.name = some dndName)) ++
          assay_name.map (fun n =>
            ⟨some (dndName ++ "_" ++ n), "Targeted assay detection", dcol.req_level⟩),
        ?_, fun x hxs hxn => ?_⟩
      · simp only [fanOutDetected, h, hfind, and_self, if_true]
        rw [List.filter_cons_of_pos (by simp [h0]), List.cons_append]
      · simp only [List.mem_append, List.mem_filter, List.mem_map]
        constructor
        · rintro (⟨hx, _⟩ | ⟨n, _, hn⟩)
          · exact hx
          · exact absurd (congrArg Col.sectionLabel hn).symm hxs
        · intro hx
          exact Or.inl ⟨hx, by simpa using hxn⟩
  · exact ⟨r2, by simp [fanOutDetected, h], fun x _ _ => Iff.rfl⟩

/-- C1: a schema field's column is present in the assembled sampleMetadata
grid if and only if its requirement level is among the selected requirement
levels and the sample-type condition holds: the selection contains the
sentinel `'other'`, or the field's `sample_type_specificity` matches the
selection (`specApplicable`, i.e. it is NaN, `'ALL'`, or contains one of the
selected sample types case-insensitively — the code's reading of
"applicability intersects the selected sample types").  The hypotheses pin
the generic situation the claim quantifies over: `c` is a named data column
of the template (not the structural `samp_name` first column, not the
per-assay-repeatable `detected_notDetected` column, not in the section
removed for metabarcoding runs, with a non-empty requirement level), its name
resolves to the schema entry `f`, and no user-defined field shadows it. -/
theorem C1_filter_correctness
    (input : List FieldSpec) (sample_type req_lev user assay_name : List String)
    (assay_type t : String) (c0 c : Col) (rest : List Col) (f : FieldSpec)
    (hmem : c ∈ rest)
    (hname : c.name = some t)
    (hsec : c.sectionLabel ≠ "Targeted assay detection")
    (hlev : c.req_level ≠ "")
    (ht1 : t ≠ "samp_name") (ht2 : t ≠ dndName) (ht3 : t ∉ user)
    (h0name : c0.name = some "samp_name")
    (h0sec : c0.sectionLabel ≠ "Targeted assay detection")
    (hf : f ∈ input) (hft : f.term_name = t)
    (huniq : ∀ g ∈ input, g.term_name = t →
      g.sample_type_specificity = f.sample_type_specificity)
    (hsamp : ∃ g ∈ input, g.term_name = "samp_name" ∧
      specApplicable sample_type g.sample_type_specificity = true) :
    c ∈ create_sample_metadata_cols input sample_type assay_type assay_name
        req_lev user (c0 :: rest) ↔
      (c.req_level ∈ req_lev ∧
        (hasOther sample_type = true ∨
          specApplicable sample_type f.sample_type_specificity = true)) := by
  have h0keep : keepBySampleType sample_type input c0 = true := by
    obtain ⟨g, hg, hgname, hgapp⟩ := hsamp
    unfold keepBySampleType
    rw [h0name]
    simp only [decide_eq_true_eq]
    exact List.mem_map.mpr ⟨g, List.mem_filter.mpr ⟨hg, hgapp⟩, hgname⟩
  obtain ⟨r1, he1, hm1⟩ := sampleTypeFilter_cons sample_type input c0 rest h0keep
  obtain ⟨r2, he2, hm2⟩ := dropTargetedSection_cons assay_type c0 r1 h0sec
  have h0dnd : c0.name ≠ some dndName := by
    rw [h0name]
    intro hcon
    simp only [Option.some.injEq] at hcon
    exact absurd hcon (by decide)
  obtain ⟨r3, he3, hm3⟩ := fanOutDetected_cons assay_type assay_name c0 r2 h0dnd
  have hterms : t ∈ filteredTerms sample_type input ↔
      specApplicable sample_type f.sample_type_specificity = true := by
    constructor
    · intro h
      obtain ⟨g, hgf, hgt⟩ := List.mem_map.mp h
      obtain ⟨hg, hgapp⟩ := List.mem_filter.mp hgf
      rw [huniq g hg hgt] at hgapp
      exact hgapp
    · intro h
      exact List.mem_map.mpr ⟨f, List.mem_filter.mpr ⟨hf, h⟩, hft⟩
  have hne0 : c ≠ c0 := by
    intro hc
    rw [hc, h0name] at hname
    exact ht1 (Option.some.injEq _ _ ▸ hname.symm)
  have hnuser : ∀ u ∈ user, (⟨some u, "User defined", "O"⟩ : Col) ≠ c := by
    intro u hu hc
    apply ht3
    have : c.name = some u := by rw [← hc]
    rw [hname] at this
    simp only [Option.some.injEq] at this
    rwa [this]
  unfold create_sample_metadata_cols
  rw [he1, he2, he3]
  simp only [reqLevelFilter, addUserFields, List.mem_append, List.mem_cons,
    List.mem_filter, List.mem_map]
  constructor
  · rintro ((hc | ⟨hc3, hp⟩) | ⟨u, hu, hcu⟩)
    · exact absurd hc hne0
    · have hc2 := (hm3 c hsec (by rw [hname]; simp [ht2])).mp hc3
      have hc1 := (hm2 c).mp hc2
      have hcrest := (hm1 c).mp hc1.1
      refine ⟨?_, ?_⟩
      · simp only [Bool.or_eq_true, decide_eq_true_eq] at hp
        rcases hp with hp | hp
        · exact hp
        · exact absurd hp hlev
      · rcases hcrest.2 with ho | hk
        · exact Or.inl ho
        · refine Or.inr ?_
          unfold keepBySampleType at hk
          rw [hname] at hk
          simp only [decide_eq_true_eq] at hk
          exact hterms.mp hk
    · exact absurd hcu (hnuser u hu)
  · rintro ⟨hrl, hst⟩
    refine Or.inl (Or.inr ⟨?_, ?_⟩)
    · apply (hm3 c hsec (by rw [hname]; simp [ht2])).mpr
      apply (hm2 c).mpr
      refine ⟨?_, fun _ => hsec⟩
      apply (hm1 c).mpr
      refine ⟨hmem, ?_⟩
      rcases hst with ho | happ
      · exact Or.inl ho
      · refine Or.inr ?_
        unfold keepBySampleType
        rw [hname]
        simp only [decide_eq_true_eq]
        exact hterms.mpr happ
    · simp [hrl]

theorem C1_filter_correctness_witness :
    (⟨some "fieldA", "Sample collection", "M"⟩ : Col) ∈
        create_sample_metadata_cols
          [⟨"samp_name", some "ALL"⟩, ⟨"fieldA", some "Water"⟩]
          ["Water"] "targeted" ["x"] ["M"] []
          [⟨some "samp_name", "Sample collection", ""⟩,
           ⟨some "fieldA", "Sample collection", "M"⟩] ↔
      ((⟨some "fieldA", "Sample collection", "M"⟩ : Col).req_level ∈ ["M"] ∧
        (hasOther ["Water"] = true ∨
          specApplicable ["Water"] (some "Water") = true)) :=
  C1_filter_correctness
    [⟨"samp_name", some "ALL"⟩, ⟨"fieldA", some "Water"⟩]
    ["Water"] ["M"] [] ["x"] "targeted" "fieldA"
    ⟨some "samp_name", "Sample collection", ""⟩
    ⟨some "fieldA", "Sample collection", "M"⟩
    [⟨some "fieldA", "Sample collection", "M"⟩]
    ⟨"fieldA", some "Water"⟩
    (by decide) (by decide) (by decide) (by decide) (by decide) (by decide)
    (by decide) (by decide) (by decide) (by decide) (by decide)
    (by decide)
    ⟨⟨"samp_name", some "ALL"⟩, by decide, by decide, by decide⟩

/-! ### String facts for the fan-out column names -/

theorem string_append_left_cancel {s t u : String} (h : s ++ t = s ++ u) : t = u := by
  have hd : s.data ++ t.data = s.data ++ u.data := by
    rw [← String.data_append, ← String.data_append, h]
  have hdu : t.data = u.data := List.append_cancel_left hd
  cases t
  cases u
  exact congrArg String.mk hdu

theorem fanName_inj {n₁ n₂ : String}
    (h : dndName ++ "_" ++ n₁ = dndName ++ "_" ++ n₂) : n₁ = n₂ :=
  string_append_left_cancel h

theorem fanName_ne_dnd (n : String) : dndName ++ "_" ++ n ≠ dndName := by
  intro h
  have hlen := congrArg String.length h
  rw [String.length_append, String.length_append] at hlen
  have h1 : ("_" : String).length = 1 := rfl
  rw [h1] at hlen
  omega

theorem countP_eq_one_of_nodup {α : Type} [DecidableEq α] {l : List α}
    (hl : l.Nodup) {a : α} (ha : a ∈ l) :
    l.countP (fun x => decide (x = a)) = 1 := by
  induction l with
  | nil => cases ha
  | cons b bs ih =>
    rw [List.countP_cons]
    rcases List.mem_cons.mp ha with rfl | hmem
    · have hnotin : a ∉ bs := (List.nodup_cons.mp hl).1
      have hz : bs.countP (fun x => decide (x = a)) = 0 :=
        List.countP_eq_zero.mpr (fun x hx => by
          simp only [decide_eq_true_eq]
          intro hxa
          exact hnotin (hxa ▸ hx))
      simp [hz]
    · have hne : b ≠ a := by
        rintro rfl
        exact (List.nodup_cons.mp hl).1 hmem
      have hrec := ih (List.nodup_cons.mp hl).2 hmem
      simp [hrec, hne]

/-- C6: for the per-assay-repeatable `detected_notDetected` field and an
assay-name list of length greater than one (targeted assays), the fan-out
step produces, in assay-name order, exactly the columns
`detected_notDetected_<name>` each carrying the source column's requirement
level; each assay name yields exactly one such column, and no column with the
plain original name remains. -/
theorem C6_assay_fanout
    (assay_name : List String) (cols : List Col) (dcol : Col)
    (hlen : 1 < assay_name.length)
    (hfind : cols.find? (fun c => decide (c.name = some dndName)) = some dcol)
    (hfresh : ∀ c ∈ cols, ∀ n ∈ assay_name, c.name ≠ some (dndName ++ "_" ++ n))
    (hnodup : assay_name.Nodup) :
    ((fanOutDetected "targeted" assay_name cols).filter
        (fun c => assay_name.any (fun n => decide (c.name = some (dndName ++ "_" ++ n)))) =
      assay_name.map (fun n =>
        ⟨some (dndName ++ "_" ++ n), "Targeted assay detection", dcol.req_level⟩)) ∧
    (∀ n ∈ assay_name,
      (fanOutDetected "targeted" assay_name cols).countP
          (fun c => decide (c.name = some (dndName ++ "_" ++ n))) = 1) ∧
    (∀ c ∈ fanOutDetected "targeted" assay_name cols, c.name ≠ some dndName) := by
  have hres : fanOutDetected "targeted" assay_name cols =
      cols.filter (fun c => !decide (c.name = some dndName)) ++
        assay_name.map (fun n =>
          ⟨some (dndName ++ "_" ++ n), "Targeted assay detection", dcol.req_level⟩) := by
    unfold fanOutDetected
    rw [if_pos ⟨rfl, hlen⟩, hfind]
  rw [hres]
  refine ⟨?_, ?_, ?_⟩
  · rw [List.filter_append]
    have h1 : (cols.filter (fun c => !decide (c.name = some dndName))).filter
        (fun c => assay_name.any
          (fun n => decide (c.name = some (dndName ++ "_" ++ n)))) = [] := by
      rw [List.filter_eq_nil_iff]
      intro c hc
      have hcc : c ∈ cols := (List.mem_filter.mp hc).1
      simp only [List.any_eq_true, decide_eq_true_eq, not_exists, not_and]
      intro n hn
      exact fun hcon => hfresh c hcc n hn hcon
    have h2 : (assay_name.map (fun n =>
          (⟨some (dndName ++ "_" ++ n), "Targeted assay detection", dcol.req_level⟩ : Col))).filter
        (fun c => assay_name.any
          (fun n => decide (c.name = some (dndName ++ "_" ++ n)))) =
        assay_name.map (fun n =>
          ⟨some (dndName ++ "_" ++ n), "Targeted assay detection", dcol.req_level⟩) := by
      rw [List.filter_eq_self]
      intro c hc
      obtain ⟨n, hn, rfl⟩ := List.mem_map.mp hc
      simp only [List.any_eq_true, decide_eq_true_eq]
      exact ⟨n, hn, rfl⟩
    rw [h1, h2, List.nil_append]
  · intro n hn
    rw [List.countP_append]
    have h0 : (cols.filter (fun c => !decide (c.name = some dndName))).countP
        (fun c => decide (c.name = some (dndName ++ "_" ++ n))) = 0 := by
      rw [List.countP_eq_zero]
      intro c hc
      have hcc : c ∈ cols := (List.mem_filter.mp hc).1
      simp only [decide_eq_true_eq]
      exact hfresh c hcc n hn
    have hm : (assay_name.map (fun n' =>
          (⟨some (dndName ++ "_" ++ n'), "Targeted assay detection", dcol.req_level⟩ : Col))).countP
        (fun c => decide (c.name = some (dndName ++ "_" ++ n))) = 1 := by
      rw [List.countP_map]
      have hcongr : ∀ x ∈ assay_name,
          (((fun c => decide (Col.name c = some (dndName ++ "_" ++ n))) ∘
            (fun n' => (⟨some (dndName ++ "_" ++ n'), "Targeted assay detection",
              dcol.req_level⟩ : Col))) x = true) ↔ ((fun x => decide (x = n)) x = true) := by
        intro x _
        simp only [Function.comp_apply, decide_eq_true_eq, Option.some.injEq]
        exact ⟨fun hx => fanName_inj hx, fun hx => by rw [hx]⟩
      rw [List.countP_congr hcongr]
      exact countP_eq_one_of_nodup hnodup hn
    rw [h0, hm]
  · intro c hc
    rcases List.mem_append.mp hc with hc | hc
    · have := (List.mem_filter.mp hc).2
      simpa using this
    · obtain ⟨n, hn, rfl⟩ := List.mem_map.mp hc
      simp only [ne_eq, Option.some.injEq]
      exact fun hcon => fanName_ne_dnd n hcon

theorem C6_assay_fanout_witness :
    ((fanOutDetected "targeted" ["a", "b"]
        [⟨some "samp_name", "Sample collection", ""⟩,
         ⟨some dndName, "Targeted assay detection", "M"⟩]).filter
        (fun c => ["a", "b"].any
          (fun n => decide (c.name = some (dndName ++ "_" ++ n)))) =
      ["a", "b"].map (fun n =>
        ⟨some (dndName ++ "_" ++ n), "Targeted assay detection",
          (⟨some dndName, "Targeted assay detection", "M"⟩ : Col).req_level⟩)) ∧
    (∀ n ∈ ["a", "b"],
      (fanOutDetected "targeted" ["a", "b"]
          [⟨some "samp_name", "Sample collection", ""⟩,
           ⟨some dndName, "Targeted assay detection", "M"⟩]).countP
          (fun c => decide (c.name = some (dndName ++ "_" ++ n))) = 1) ∧
    (∀ c ∈ fanOutDetected "targeted" ["a", "b"]
        [⟨some "samp_name", "Sample collection", ""⟩,
         ⟨some dndName, "Targeted assay detection", "M"⟩],
      c.name ≠ some dndName) :=
  C6_assay_fanout ["a", "b"]
    [⟨some "samp_name", "Sample collection", ""⟩,
     ⟨some dndName, "Targeted assay detection", "M"⟩]
    ⟨some dndName, "Targeted assay detection", "M"⟩
    (by decide) (by decide) (by decide) (by decide)

/-! ### Deletion requests of the profile transformer
(FAIRe2NODE_helpers.py, `remove_bioinfo_fields_from_project_metadata` and
`remove_bioinfo_fields_from_experiment_metadata`) -/

/-- One `deleteDimension` request range: zero-based, half-open
`[startIndex, endIndex)`. -/
structure DelRange where
  startIndex : Nat
  endIndex : Nat
deriving DecidableEq

/-- Python's `for i, x in enumerate(l, start=s): if p(x): out.append(i)`. -/
def collectIndices {α : Type} (p : α → Bool) : List α → Nat → List Nat
  | [], _ => []
  | x :: xs, i => (if p x then [i] else []) ++ collectIndices p xs (i + 1)

/-- `rows_to_delete` (FAIRe2NODE_helpers.py lines 65-68): 1-based sheet rows
whose `term_name` cell is a bioinformatics field, enumerated over `data[1:]`
starting at 2.  `getD` returns `""` for a short row (worksheet rows are
uniform, so this matches Python's `row[term_name_col]`). -/
def rows_to_delete (data : List (List String)) (term_name_col : Nat)
    (bioinfo_fields : List String) : List Nat :=
  collectIndices (fun r => decide (r.getD term_name_col "" ∈ bioinfo_fields))
    (data.drop 1) 2

/-- `cols_to_delete` (FAIRe2NODE_helpers.py lines 173-176): 1-based sheet
columns whose term cell in `data[2]` is a bioinformatics field (`i + 1` for
`i` starting at 0, i.e. enumeration starting at 1). -/
def cols_to_delete (data : List (List String)) (bioinfo_fields : List String) :
    List Nat :=
  collectIndices (fun t => decide (t ∈ bioinfo_fields)) (data.getD 2 []) 1

/-- Stable insertion into a descending-sorted list. -/
def insertDesc (x : Nat) : List Nat → List Nat
  | [] => [x]
  | y :: ys => if y ≤ x then x :: y :: ys else y :: insertDesc x ys

/-- Python's `sorted(_, reverse=True)` (the collected indices are distinct, so
stability is immaterial). -/
def sortDesc : List Nat → List Nat
  | [] => []
  | x :: xs => insertDesc x (sortDesc xs)

/-- The `deleteDimension` batch built at FAIRe2NODE_helpers.py lines 70-82 and
183-194: one request per index, iterating over `sorted(idxs, reverse=True)`,
each with `startIndex = idx - 1` (0-based) and `endIndex = idx`. -/
def deleteRequests (idxs : List Nat) : List DelRange :=
  (sortDesc idxs).map (fun idx => ⟨idx - 1, idx⟩)

/-- Row-deletion batch of `remove_bioinfo_fields_from_project_metadata`. -/
def remove_bioinfo_project_requests (data : List (List String))
    (term_name_col : Nat) (bioinfo_fields : List String) : List DelRange :=
  deleteRequests (rows_to_delete data term_name_col bioinfo_fields)

/-- Column-deletion batch of `remove_bioinfo_fields_from_experiment_metadata`. -/
def remove_bioinfo_experiment_requests (data : List (List String))
    (bioinfo_fields : List String) : List DelRange :=
  deleteRequests (cols_to_delete data bioinfo_fields)

theorem collectIndices_lb {α : Type} (p : α → Bool) :
    ∀ (l : List α) (s x : Nat), x ∈ collectIndices p l s → s ≤ x := by
  intro l
  induction l with
  | nil => intro s x hx; simp [collectIndices] at hx
  | cons a as ih =>
    intro s x hx
    simp only [collectIndices, List.mem_append] at hx
    rcases hx with hx | hx
    · by_cases hp : p a = true
      · simp only [hp, if_true, List.mem_singleton] at hx
        omega
      · simp [hp] at hx
    · have := ih (s + 1) x hx
      omega

theorem collectIndices_sorted {α : Type} (p : α → Bool) :
    ∀ (l : List α) (s : Nat), List.Sorted (· < ·) (collectIndices p l s) := by
  intro l
  induction l with
  | nil => intro s; simp [collectIndices]
  | cons a as ih =>
    intro s
    by_cases hp : p a = true
    · simp only [collectIndices, hp, if_true, List.singleton_append]
      rw [List.sorted_cons]
      refine ⟨fun b hb => ?_, ih (s + 1)⟩
      have := collectIndices_lb p as (s + 1) b hb
      omega
    · have heq : collectIndices p (a :: as) s = collectIndices p as (s + 1) := by
        simp [collectIndices, hp]
      rw [heq]
      exact ih (s + 1)

theorem insertDesc_perm (x : Nat) (l : List Nat) :
    List.Perm (insertDesc x l) (x :: l) := by
  induction l with
  | nil => exact List.Perm.refl _
  | cons y ys ih =>
    by_cases h : y ≤ x
    · simp [insertDesc, h]
    · simp only [insertDesc, h, if_false]
      exact List.Perm.trans (ih.cons y) (List.Perm.swap x y ys)

theorem insertDesc_sorted (x : Nat) {l : List Nat}
    (hl : List.Sorted (· ≥ ·) l) : List.Sorted (· ≥ ·) (insertDesc x l) := by
  induction l with
  | nil => simp [insertDesc]
  | cons y ys ih =>
    rw [List.sorted_cons] at hl
    by_cases h : y ≤ x
    · simp only [insertDesc, h, if_true]
      rw [List.sorted_cons, List.sorted_cons]
      refine ⟨fun b hb => ?_, hl.1, hl.2⟩
      rcases List.mem_cons.mp hb with rfl | hb
      · exact h
      · exact le_trans (hl.1 b hb) h
    · simp only [insertDesc, h, if_false]
      rw [List.sorted_cons]
      refine ⟨fun b hb => ?_, ih hl.2⟩
      have hmem : b ∈ x :: ys := (insertDesc_perm x ys).subset hb
      rcases List.mem_cons.mp hmem with rfl | hb'
      · omega
      · exact hl.1 b hb'

theorem sortDesc_sorted (l : List Nat) : List.Sorted (· ≥ ·) (sortDesc l) := by
  induction l with
  | nil => simp [sortDesc]
  | cons x xs ih => exact insertDesc_sorted x ih

theorem sortDesc_perm (l : List Nat) : List.Perm (sortDesc l) l := by
  induction l with
  | nil => exact List.Perm.refl _
  | cons x xs ih =>
    exact List.Perm.trans (insertDesc_perm x (sortDesc xs)) (ih.cons x)

theorem sorted_gt_of_ge_nodup {l : List Nat}
    (hs : List.Sorted (· ≥ ·) l) (hn : l.Nodup) : List.Sorted (· > ·) l :=
  (hs.and hn).imp (fun h => by omega)

theorem sorted_gt_map_pred {l : List Nat} (hs : List.Sorted (· > ·) l)
    (h1 : ∀ x ∈ l, 1 ≤ x) :
    List.Sorted (· > ·) (l.map (fun x => x - 1)) := by
  rw [List.Sorted, List.pairwise_map]
  refine List.Pairwise.imp_of_mem ?_ hs
  intro a b ha hb hab
  have := h1 b hb
  omega

theorem deleteRequests_sorted {idxs : List Nat}
    (hs : List.Sorted (· < ·) idxs) (h1 : ∀ x ∈ idxs, 1 ≤ x) :
    List.Sorted (· > ·) ((deleteRequests idxs).map DelRange.startIndex) := by
  unfold deleteRequests
  rw [List.map_map]
  have hcomp : DelRange.startIndex ∘ (fun idx => (⟨idx - 1, idx⟩ : DelRange)) =
      fun idx => idx - 1 := rfl
  rw [hcomp]
  have hnd : (sortDesc idxs).Nodup :=
    ((sortDesc_perm idxs).nodup_iff).mpr (hs.imp (fun h => Nat.ne_of_lt h))
  refine sorted_gt_map_pred (sorted_gt_of_ge_nodup (sortDesc_sorted idxs) hnd) ?_
  intro x hx
  exact h1 x ((sortDesc_perm idxs).mem_iff.mp hx)

/-- C7: the `deleteDimension` batches emitted by the profile transformer —
row deletions in `remove_bioinfo_fields_from_project_metadata` and column
deletions in `remove_bioinfo_fields_from_experiment_metadata` — list their
target indices in strictly descending order, so applying them in emitted
order never shifts the index of a not-yet-deleted target. -/
theorem C7_descending_deletions (data : List (List String)) (term_name_col : Nat)
    (bioinfo_fields : List String) :
    List.Sorted (· > ·)
        ((remove_bioinfo_project_requests data term_name_col bioinfo_fields).map
          DelRange.startIndex) ∧
      List.Sorted (· > ·)
        ((remove_bioinfo_experiment_requests data bioinfo_fields).map
          DelRange.startIndex) := by
  constructor
  · refine deleteRequests_sorted (collectIndices_sorted _ _ 2) ?_
    intro x hx
    have := collectIndices_lb _ _ 2 x hx
    omega
  · refine deleteRequests_sorted (collectIndices_sorted _ _ 1) ?_
    intro x hx
    exact collectIndices_lb _ _ 1 x hx

/-! ### Data-validation (dropdown) requests -/

/-- One row of the vocabulary sheet `vocab_df`: `term_name`, `n_options`, and
the `vocab1..vocabN` cells in order (`none` models a NaN cell or a missing
column). -/
structure VocabRow where
  term_name : String
  n_options : Nat
  vocabs : List (Option String)
deriving DecidableEq

/-- Dropdown values extracted at project_metadata_sheet.py line 130 and
sample_metadata_sheet.py lines 192-193:
`[str(row[f'vocab{j+1}']) for j in range(n_options) if ... notna(...)]`. -/
def extractVocabValues (r : VocabRow) : List String :=
  (List.range r.n_options).filterMap (fun j => r.vocabs.getD j none)

/-- A `setDataValidation` request: the term the dropdown belongs to, its
ONE_OF_LIST values, `showCustomUi`, and the `strict` flag — `none` when the
key is absent from the JSON, in which case the Sheets API defaults to
non-strict. -/
structure DVRequest where
  term : String
  values : List String
  showCustomUi : Bool
  strict : Option Bool
deriving DecidableEq

/-- Dropdown requests of `create_project_metadata_sheet`
(project_metadata_sheet.py lines 123-157): for each term of the sheet, look
up the vocabulary row; when values exist, the emitted rule carries
`"strict": True`. -/
def projectValidationRequests (terms : List String) (vocab : List VocabRow) :
    List DVRequest :=
  terms.filterMap (fun t =>
    match vocab.find? (fun r => decide (r.term_name = t)) with
    | none => none
    | some r =>
      let vs := extractVocabValues r
      if vs.isEmpty then none else some ⟨t, vs, true, some true⟩)

/-- Dropdown requests of `create_sample_metadata_sheet`
(sample_metadata_sheet.py lines 184-213): empty term cells are skipped; the
emitted rule has `showCustomUi: True` and no `strict` key at all. -/
def sampleValidationRequests (terms : List String) (vocab : List VocabRow) :
    List DVRequest :=
  terms.filterMap (fun t =>
    if t = "" then none
    else
      match vocab.find? (fun r => decide (r.term_name = t)) with
      | none => none
      | some r =>
        let vs := extractVocabValues r
        if vs.isEmpty then none else some ⟨t, vs, true, none⟩)

/-- One NOAA checklist field handled by `add_noaa_fields_to_project_metadata`:
the term name and its `controlled_vocabulary_options` cell (`none` = NaN). -/
structure NoaaField where
  term_name : String
  cv_options : Option String
deriving DecidableEq

/-- `[v.strip() for v in str(cv_options).split('|') if v.strip()]`
(FAIRe2NODE_helpers.py line 403). -/
def parsePipeOptions (s : String) : List String :=
  ((s.splitOn "|").map String.trim).filter (fun v => !decide (v = ""))

/-- Dropdown requests of `add_noaa_fields_to_project_metadata`
(FAIRe2NODE_helpers.py lines 400-423): profile-appended fields; the emitted
rule carries `"strict": False`. -/
def noaaValidationRequests (fields : List NoaaField) : List DVRequest :=
  fields.filterMap (fun f =>
    match f.cv_options with
    | none => none
    | some s =>
      if s = "" then none
      else
        let vs := parsePipeOptions s
        if vs.isEmpty then none else some ⟨f.term_name, vs, true, some false⟩)

/-- C8 (counterexample): a sampleMetadata dropdown request built for a
primary-schema field carries no `strict` key at all (so the Sheets API
default, non-strict, applies) — refuting the claim that every primary-schema
`SetConstraint` request carries strict enforcement. -/
theorem C8_counterexample :
    sampleValidationRequests ["fieldA"] [⟨"fieldA", 1, [some "v1"]⟩] =
        [⟨"fieldA", ["v1"], true, none⟩] ∧
      (⟨"fieldA", ["v1"], true, none⟩ : DVRequest).strict ≠ some true := by
  decide

/-- C8 (amended): every dropdown rule emitted for projectMetadata
(primary schema) carries `strict = True`; every dropdown rule emitted for
sampleMetadata (also primary schema) omits the `strict` key, so the service
default (non-strict) applies; every dropdown rule emitted for NOAA
profile-appended fields carries `strict = False`. -/
theorem C8_strictness (terms : List String) (vocab : List VocabRow)
    (fields : List NoaaField) :
    (∀ q ∈ projectValidationRequests terms vocab, q.strict = some true) ∧
      (∀ q ∈ sampleValidationRequests terms vocab, q.strict = none) ∧
      (∀ q ∈ noaaValidationRequests fields, q.strict = some false) := by
  refine ⟨?_, ?_, ?_⟩
  · intro q hq
    unfold projectValidationRequests at hq
    obtain ⟨t, _, hf⟩ := List.mem_filterMap.mp hq
    dsimp only at hf
    split at hf
    · exact absurd hf (by simp)
    · split at hf
      · exact absurd hf (by simp)
      · simp only [Option.some.injEq] at hf
        rw [← hf]
  · intro q hq
    unfold sampleValidationRequests at hq
    obtain ⟨t, _, hf⟩ := List.mem_filterMap.mp hq
    dsimp only at hf
    split at hf
    · exact absurd hf (by simp)
    · split at hf
      · exact absurd hf (by simp)
      · split at hf
        · exact absurd hf (by simp)
        · simp only [Option.some.injEq] at hf
          rw [← hf]
  · intro q hq
    unfold noaaValidationRequests at hq
    obtain ⟨f, _, hf⟩ := List.mem_filterMap.mp hq
    dsimp only at hf
    split at hf
    · exact absurd hf (by simp)
    · split at hf
      · exact absurd hf (by simp)
      · split at hf
        · exact absurd hf (by simp)
        · simp only [Option.some.injEq] at hf
          rw [← hf]

/-- One row of the NOAA checklist as consumed by
`add_noaa_fields_to_project_metadata` (FAIRe2NODE_helpers.py lines 270-282 and
400-423): the three attributes copied into the appended sheet row, plus the
`controlled_vocabulary_options` cell (`none` = NaN, i.e. an unresolvable
vocabulary reference). -/
structure NoaaChecklistRow where
  term_name : String
  requirement_level_code : String
  sectionLabel : String
  cv_options : Option String
deriving DecidableEq

/-- Restriction of a checklist row to the attributes the dropdown loop reads. -/
def toNoaaField (r : NoaaChecklistRow) : NoaaField :=
  ⟨r.term_name, r.cv_options⟩

/-- One sheet row appended by `add_noaa_fields_to_project_metadata`
(FAIRe2NODE_helpers.py lines 270-282): every header cell is `''` except
`term_name`, `requirement_level_code` and `section`. -/
structure NoaaAppendedRow where
  term_name : String
  requirement_level_code : String
  sectionLabel : String
deriving DecidableEq

/-- The rows appended to projectMetadata by
`add_noaa_fields_to_project_metadata` (FAIRe2NODE_helpers.py lines 270-287):
one per NOAA checklist row, in order, built from `term_name`,
`requirement_level_code` and `section` only — the append never consults
`controlled_vocabulary_options`. -/
def add_noaa_fields_rows (noaa_fields : List NoaaChecklistRow) :
    List NoaaAppendedRow :=
  noaa_fields.map (fun r => ⟨r.term_name, r.requirement_level_code, r.sectionLabel⟩)

/-- C9: a controlled-vocabulary field whose vocabulary cannot be resolved is
never an error, in both places the claim names.  Primary assembly: a term
with no matching `vocab_df` row contributes nothing to the sampleMetadata and
projectMetadata dropdown requests (exactly as if it were absent from the term
list) and no emitted request targets it; the grid itself never consults the
vocabulary (`create_sample_metadata_cols` takes no vocabulary input), so the
field stays in the grid.  Profile append: a NOAA checklist row whose
`controlled_vocabulary_options` is NaN or empty is still appended to the
sheet by `add_noaa_fields_rows` (which never reads that cell), and the NOAA
dropdown loop emits no request for it. -/
theorem C9_missing_vocab_tolerated (vocab : List VocabRow) (t : String)
    (ts terms : List String) (noaa : List NoaaChecklistRow) (r : NoaaChecklistRow)
    (hnone : ∀ v ∈ vocab, v.term_name ≠ t)
    (hr : r ∈ noaa)
    (hcv : ∀ f ∈ noaa, f.term_name = r.term_name →
      f.cv_options = none ∨ f.cv_options = some "") :
    sampleValidationRequests (t :: ts) vocab = sampleValidationRequests ts vocab ∧
      projectValidationRequests (t :: ts) vocab = projectValidationRequests ts vocab ∧
      (∀ q ∈ sampleValidationRequests terms vocab, q.term ≠ t) ∧
      (∀ q ∈ projectValidationRequests terms vocab, q.term ≠ t) ∧
      (⟨r.term_name, r.requirement_level_code, r.sectionLabel⟩ : NoaaAppendedRow) ∈
        add_noaa_fields_rows noaa ∧
      (∀ q ∈ noaaValidationRequests (noaa.map toNoaaField), q.term ≠ r.term_name) := by
  have hfind : vocab.find? (fun v => decide (v.term_name = t)) = none := by
    rw [List.find?_eq_none]
    intro v hv
    simp only [decide_eq_true_eq]
    exact hnone v hv
  refine ⟨?_, ?_, ?_, ?_, ?_, ?_⟩
  · unfold sampleValidationRequests
    apply List.filterMap_cons_none
    dsimp only
    by_cases ht : t = ""
    · simp [ht]
    · rw [if_neg ht, hfind]
  · unfold projectValidationRequests
    apply List.filterMap_cons_none
    dsimp only
    rw [hfind]
  · intro q hq
    unfold sampleValidationRequests at hq
    obtain ⟨t', _, hf⟩ := List.mem_filterMap.mp hq
    dsimp only at hf
    split at hf
    · exact absurd hf (by simp)
    · cases hfind' : vocab.find? (fun r => decide (r.term_name = t')) with
      | none => rw [hfind'] at hf; exact absurd hf (by simp)
      | some r =>
        rw [hfind'] at hf
        dsimp only at hf
        by_cases hv : (extractVocabValues r).isEmpty = true
        · rw [if_pos hv] at hf
          exact absurd hf (by simp)
        · rw [if_neg hv] at hf
          simp only [Option.some.injEq] at hf
          intro hqt
          have ht' : t' = t := by rw [← hf] at hqt; exact hqt
          rw [ht', hfind] at hfind'
          exact Option.noConfusion hfind'
  · intro q hq
    unfold projectValidationRequests at hq
    obtain ⟨t', _, hf⟩ := List.mem_filterMap.mp hq
    dsimp only at hf
    cases hfind' : vocab.find? (fun r => decide (r.term_name = t')) with
    | none => rw [hfind'] at hf; exact absurd hf (by simp)
    | some r =>
      rw [hfind'] at hf
      dsimp only at hf
      by_cases hv : (extractVocabValues r).isEmpty = true
      · rw [if_pos hv] at hf
        exact absurd hf (by simp)
      · rw [if_neg hv] at hf
        simp only [Option.some.injEq] at hf
        intro hqt
        have ht' : t' = t := by rw [← hf] at hqt; exact hqt
        rw [ht', hfind] at hfind'
        exact Option.noConfusion hfind'
  · exact List.mem_map.mpr ⟨r, hr, rfl⟩
  · intro q hq hqt
    unfold noaaValidationRequests at hq
    obtain ⟨f', hf', hg⟩ := List.mem_filterMap.mp hq
    obtain ⟨f, hfmem, rfl⟩ := List.mem_map.mp hf'
    dsimp only [toNoaaField] at hg
    cases hcvo : f.cv_options with
    | none =>
      rw [hcvo] at hg
      exact absurd hg (by simp)
    | some s =>
      rw [hcvo] at hg
      dsimp only at hg
      by_cases hs : s = ""
      · rw [if_pos hs] at hg
        exact absurd hg (by simp)
      · rw [if_neg hs] at hg
        by_cases hv : (parsePipeOptions s).isEmpty = true
        · rw [if_pos hv] at hg
          exact absurd hg (by simp)
        · rw [if_neg hv] at hg
          simp only [Option.some.injEq] at hg
          have hterm : f.term_name = r.term_name := by
            rw [← hqt, ← hg]
          rcases hcv f hfmem hterm with h | h
          · rw [hcvo] at h
            exact Option.noConfusion h
          · rw [hcvo] at h
            simp only [Option.some.injEq] at h
            exact hs h

theorem C9_missing_vocab_tolerated_witness :
    sampleValidationRequests ("mystery_term" :: ["fieldA"])
          [⟨"fieldA", 1, [some "x"]⟩] =
        sampleValidationRequests ["fieldA"] [⟨"fieldA", 1, [some "x"]⟩] ∧
      projectValidationRequests ("mystery_term" :: ["fieldA"])
          [⟨"fieldA", 1, [some "x"]⟩] =
        projectValidationRequests ["fieldA"] [⟨"fieldA", 1, [some "x"]⟩] ∧
      (∀ q ∈ sampleValidationRequests ["mystery_term", "fieldA"]
          [⟨"fieldA", 1, [some "x"]⟩], q.term ≠ "mystery_term") ∧
      (∀ q ∈ projectValidationRequests ["mystery_term", "fieldA"]
          [⟨"fieldA", 1, [some "x"]⟩], q.term ≠ "mystery_term") ∧
      (⟨"noaa_field", "M", "Project info"⟩ : NoaaAppendedRow) ∈
        add_noaa_fields_rows [⟨"noaa_field", "M", "Project info", none⟩] ∧
      (∀ q ∈ noaaValidationRequests
          (([⟨"noaa_field", "M", "Project info", none⟩] :
            List NoaaChecklistRow).map toNoaaField),
        q.term ≠ "noaa_field") :=
  C9_missing_vocab_tolerated [⟨"fieldA", 1, [some "x"]⟩] "mystery_term"
    ["fieldA"] ["mystery_term", "fieldA"]
    [⟨"noaa_field", "M", "Project info", none⟩]
    ⟨"noaa_field", "M", "Project info", none⟩
    (by decide) (by decide) (by decide)

end FAIReSheets
